import Mathlib

/-!
Shallow embedding of `src/stopuhr/chrono.py` (the `Chronometer` class and its
helper `_get_bound_args`), used to check the natural-language specification of
the repository against the code.

Modelling conventions:
* Clock readings (`time.perf_counter()`) are external inputs; every operation
  that reads the clock takes the reading as an explicit rational argument.
* Duration values (Python floats) are modelled as exact rationals.
* A printer (`Callable[[str], None]`) is an external sink whose behaviour is
  invisible to the core, so it is modelled as an opaque handle; emitted lines
  are collected as `(handle, text)` pairs.
* Python `dict`s preserve insertion order, so both `durations` and
  `idling_starts` are association lists; `defaultdict(list)` lookup of a
  missing key yields `[]` (`lookupD`), and mutation of a missing key creates
  it at the end of the dict (`updateD`).
* Raised Python exceptions are modelled with `PyErr`; an operation that can
  raise returns either an `Except PyErr _` or an `OpResult` carrying the
  object state left behind by the partial execution.
-/

namespace Stopuhr

/-- Opaque handle for a text sink (`printer` argument, `Callable[[str], None]`).
The sink's behaviour is external to the core (spec §6), only its identity
matters for routing output. -/
abbrev Printer := Nat

abbrev Key := String

/-- Python exception classes that the source can raise. -/
inductive PyErr where
  | valueError : String → PyErr
  | indexError : String → PyErr
  | assertionError : String → PyErr
deriving DecidableEq

/-- A single-quote character as a string (used in the source's error message
`f"Key '{key}' not started!"`). -/
def squote : String := String.singleton (Char.ofNat 39)

/-- Ordered-dict lookup with `defaultdict(list)` semantics: a missing key
reads as the empty list. -/
def lookupD (m : List (Key × List ℚ)) (k : Key) : List ℚ :=
  match m with
  | [] => []
  | (k', v) :: rest => if k' = k then v else lookupD rest k

/-- Ordered-dict mutation with `defaultdict(list)` semantics: an existing key
is updated in place (keeping its position), a missing key is created at the
end of the dict with `f []`. -/
def updateD (m : List (Key × List ℚ)) (k : Key) (f : List ℚ → List ℚ) :
    List (Key × List ℚ) :=
  match m with
  | [] => [(k, f [])]
  | (k', v) :: rest => if k' = k then (k, f v) :: rest else (k', v) :: updateD rest k f

/-- `res = res or self.res` (chrono.py lines 277, 316, 363): Python `or`
tests the override by *truthiness*, so an explicit override of `0` falls back
to the instance default exactly like `None` does. -/
def resolveRes (override : Option ℕ) (dflt : ℕ) : ℕ :=
  match override with
  | Option.none => dflt
  | some r => if r = 0 then dflt else r

/-- `log = log if log is not None else self.log`: tested by presence. -/
def resolveLog (override : Option Bool) (dflt : Bool) : Bool :=
  override.getD dflt

/-- `printer = printer or self.printer`: a Python function object is always
truthy, so only `None` falls back to the default. -/
def resolvePrinter (override : Option Printer) (dflt : Printer) : Printer :=
  override.getD dflt

/-! ### Fixed-point formatting (`f"{x:.{res}f}"`)

Python formats a value to `res` fractional digits by rounding
`x * 10^res` to the nearest integer, ties to even. -/

/-- Floor of a rational as an integer (`q.den` is always positive). -/
def ratFloor (q : ℚ) : ℤ := q.num.fdiv q.den

/-- Round a rational to the nearest integer, ties to even (the rounding used
by Python's fixed-point float formatting). -/
def roundHalfEven (q : ℚ) : ℤ :=
  let f : ℤ := ratFloor q
  let frac : ℚ := q - (f : ℚ)
  if frac < 1/2 then f
  else if 1/2 < frac then f + 1
  else if f % 2 = 0 then f else f + 1

/-- Pad a digit string with leading zeros up to length `n`. -/
def padLeft0 (s : String) (n : ℕ) : String :=
  String.mk (List.replicate (n - s.length) '0') ++ s

/-- Render a non-negative integer `m` that already carries `res` fractional
digits (i.e. `m = round(x * 10^res)`) as the decimal string `"<int>.<frac>"`. -/
def renderScaled (m : ℕ) (res : ℕ) : String :=
  if res = 0 then toString m
  else toString (m / 10 ^ res) ++ "." ++ padLeft0 (toString (m % 10 ^ res)) res

/-- `f"{q:.{res}f}"` for a rational `q`. -/
def formatFixed (q : ℚ) (res : ℕ) : String :=
  let s : ℤ := roundHalfEven (q * ((10 ^ res : ℕ) : ℚ))
  let sign := if s < 0 ∨ (s = 0 ∧ q < 0) then "-" else ""
  sign ++ renderScaled s.natAbs res

/-- `round(sqrt w)` for a non-negative rational `w`, ties to even, computed
exactly with integer square roots: writing `w = p/q`, we have
`sqrt w = sqrt(p*q)/q`, and `floor(sqrt(p*q)/q + 1/2) = (Nat.sqrt (4*p*q) + q) / (2*q)`
by the floor-division composition identity; an exact half-way point
(`4*p*q = ((2*hu-1)*q)^2`) is then adjusted down when the rounded-up value is
odd. -/
def sqrtRoundHE (w : ℚ) : ℕ :=
  let p := w.num.toNat
  let q := w.den
  let hu := (Nat.sqrt (4 * (p * q)) + q) / (2 * q)
  if 4 * (p * q) = ((2 * hu - 1) * q) ^ 2 ∧ hu % 2 = 1 then hu - 1 else hu

/-- `f"{sqrt v:.{res}f}"` for a non-negative rational `v`: the source computes
`stdev_val = statistics.stdev(values)` (the square root of the
Bessel-corrected sample variance) and formats it to `res` fractional digits;
the rounded scaled value `round(sqrt v * 10^res) = round(sqrt (v * 10^(2*res)))`
is computed exactly by `sqrtRoundHE`. -/
def formatSqrtFixed (v : ℚ) (res : ℕ) : String :=
  renderScaled (sqrtRoundHE (v * ((10 ^ (2 * res) : ℕ) : ℚ))) res

/-- Bessel-corrected sample variance (`statistics.stdev` squared):
`sum((x - mean)^2) / (n - 1)`. -/
def sampleVariance (values : List ℚ) : ℚ :=
  let n := values.length
  let m := values.sum / (n : ℚ)
  (values.map (fun x => (x - m) ^ 2)).sum / ((n : ℚ) - 1)

/-! ### The Chronometer state and its operations -/

/-- The `Chronometer` object state: configuration plus the two ordered maps
(`self.durations` and `self.idling_starts`, both `defaultdict(list)`). -/
structure Chronometer where
  printer : Printer
  res : ℕ
  log : Bool
  durations : List (Key × List ℚ)
  idling_starts : List (Key × List ℚ)
deriving DecidableEq

/-- `Chronometer.__init__`: store the configuration and `reset()`. -/
def Chronometer.init (printer : Printer) (res : ℕ) (log : Bool) : Chronometer :=
  { printer := printer, res := res, log := log, durations := [], idling_starts := [] }

/-- `reset()`: clear both maps in place, preserving configuration. -/
def Chronometer.reset (c : Chronometer) : Chronometer :=
  { c with durations := [], idling_starts := [] }

/-- `start(key)`: push `time.perf_counter()` (the explicit `now` argument)
onto this key's pending queue. Always succeeds. -/
def Chronometer.start (c : Chronometer) (key : Key) (now : ℚ) : Chronometer :=
  { c with idling_starts := updateD c.idling_starts key (fun l => l ++ [now]) }

/-- Result of an operation on a `Chronometer`: the object state it leaves
behind, the lines it emitted, and the exception it raised (if any). -/
structure OpResult where
  state : Chronometer
  output : List (Printer × String)
  raised : Option PyErr
deriving DecidableEq

/-- `stop(key, res, log, printer)`: resolve the per-call overrides, read the
clock (`now`), pop the *oldest* pending start (`.pop(0)`); if the pending
queue is empty this raises `ValueError(f"Key '{key}' not started!")` and the
object state is left as it was (the `defaultdict` access may create an empty
pending entry, which is invisible through `lookupD`). On success, append
`now - start` to `durations[key]` and, when logging is on, emit
`f"{key} took {duration:.{res}f}s"`. -/
def Chronometer.stop (c : Chronometer) (key : Key) (now : ℚ)
    (res : Option ℕ) (log : Option Bool) (printer : Option Printer) : OpResult :=
  let r := resolveRes res c.res
  let lg := resolveLog log c.log
  let pr := resolvePrinter printer c.printer
  match lookupD c.idling_starts key with
  | [] =>
    { state := c, output := [],
      raised := some (PyErr.valueError ("Key " ++ squote ++ key ++ squote ++ " not started!")) }
  | t :: rest =>
    let duration := now - t
    { state := { c with
        idling_starts := updateD c.idling_starts key (fun _ => rest),
        durations := updateD c.durations key (fun l => l ++ [duration]) },
      output := if lg then [(pr, key ++ " took " ++ formatFixed duration r ++ "s")] else [],
      raised := Option.none }

/-- One line of `summary()`: the three-way branch on `durations[key]`
(chrono.py lines 279-292). -/
def summaryLine (key : Key) (values : List ℚ) (res : ℕ) : String :=
  match values with
  | [] => key ++ " has no durations recorded"
  | [v] => key ++ " took " ++ formatFixed v res ++ "s"
  | _ =>
    let n := values.length
    let total := values.sum
    let meanVal := total / (n : ℚ)
    key ++ " took " ++ formatFixed meanVal res ++ " ± " ++
      formatSqrtFixed (sampleVariance values) res ++ "s (n=" ++ toString n ++
      " -> total=" ++ formatFixed total res ++ "s)"

/-- `summary(res, printer)`: one line per key of `durations`, in
key-iteration (insertion) order. -/
def Chronometer.summary (c : Chronometer) (res : Option ℕ) (printer : Option Printer) :
    List (Printer × String) :=
  let r := resolveRes res c.res
  let pr := resolvePrinter printer c.printer
  c.durations.map (fun kv => (pr, summaryLine kv.1 kv.2 r))

/-- `export()`: pad every key's sequence with `pd.NA` (here `Option.none`) up
to the maximum length and return the columns. `max(len(v) for v in
self.durations.values())` raises `ValueError` when `durations` is empty. -/
def Chronometer.export (c : Chronometer) : Except PyErr (List (Key × List (Option ℚ))) :=
  match c.durations with
  | [] => Except.error (PyErr.valueError "max() arg is an empty sequence")
  | _ =>
    let maxLen := (c.durations.map (fun kv => kv.2.length)).foldl Nat.max 0
    Except.ok (c.durations.map (fun kv =>
      (kv.1, kv.2.map Option.some ++ List.replicate (maxLen - kv.2.length) Option.none)))

/-- `merge(other)`: for every key of `other.durations` in iteration order,
`self.durations[key].extend(values)`. Touches neither `idling_starts` nor the
configuration; `other` is a pure input. -/
def Chronometer.merge (c other : Chronometer) : Chronometer :=
  other.durations.foldl
    (fun acc kv => { acc with durations := updateD acc.durations kv.1 (fun l => l ++ kv.2) }) c

/-- `combine(*timers)`: normalised to a `List` input (the source additionally
unwraps a single-list argument, a Python calling-convention detail). An empty
input fails — with `IndexError` from `timers[0]` when called with no
arguments, or with `AssertionError` from `assert len(timers) > 0` when called
with one empty list. Otherwise a fresh `Chronometer` is built from the first
timer's configuration and every input (including the first) is merged into it
in listed order. -/
def Chronometer.combine (timers : List Chronometer) : Except PyErr Chronometer :=
  match timers with
  | [] => Except.error (PyErr.indexError "tuple index out of range")
  | t0 :: _ =>
    let combined := Chronometer.init t0.printer t0.res t0.log
    Except.ok (timers.foldl (fun acc t => acc.merge t) combined)

/-- `__call__` under `@contextmanager` semantics (chrono.py lines 404-426):
`self.start(key)` on entry, then the wrapped block runs; on a normal exit the
generator resumes and calls `self.stop(key, res, log, printer)`; if the block
raises, the exception is thrown into the generator at the `yield` and — since
the source has no `try/finally` around the `yield` — `stop` is never called:
the exception propagates with the pending start still queued and no duration
recorded. `blockExn` is the outcome of the wrapped block. -/
def Chronometer.callScope (c : Chronometer) (key : Key) (t1 t2 : ℚ)
    (res : Option ℕ) (log : Option Bool) (printer : Option Printer)
    (blockExn : Option PyErr) : OpResult :=
  let c1 := c.start key t1
  match blockExn with
  | some e => { state := c1, output := [], raised := some e }
  | Option.none => c1.stop key t2 res log printer

/-- `n` explicit `start`/`stop` pairs for one key in strict alternation, with
the `i`-th pair's clock readings given by `times[i] = (start, stop)`. -/
def startStopPairs (c : Chronometer) (key : Key) (times : List (ℚ × ℚ)) : OpResult :=
  match times with
  | [] => { state := c, output := [], raised := Option.none }
  | (t1, t2) :: rest =>
    let r := (c.start key t1).stop key t2 Option.none (some false) Option.none
    match r.raised with
    | some _ => r
    | Option.none => startStopPairs r.state key rest

/-! ### The argument-echoing decorator (`Chronometer.f` and `_get_bound_args`)

Parameter values of the wrapped function are of an arbitrary type `α`
together with a rendering function `render : α → String` standing for
Python's `str()` (the decorator only ever renders values via `f"{k}={v}"`). -/

/-- One declared parameter of the wrapped function's signature: its name and
its declared default, if any (`inspect.Parameter`). -/
structure Param (α : Type) where
  name : String
  default : Option α
deriving DecidableEq

/-- The `print_kwargs` argument of `Chronometer.f`: an explicit allow-list,
the `"all"` sentinel, or `None`. -/
inductive PrintKwargs where
  | list : List String → PrintKwargs
  | all : PrintKwargs
  | none : PrintKwargs
deriving DecidableEq

/-- Python `dict` assignment `m[k] = v`: an existing key keeps its position
and gets the new value, a missing key is appended. -/
def dictInsert {α : Type} (m : List (String × α)) (k : String) (v : α) :
    List (String × α) :=
  match m with
  | [] => [(k, v)]
  | (k', v') :: rest => if k' = k then (k, v) :: rest else (k', v') :: dictInsert rest k v

/-- Ordered-dict lookup (`m[k]` guarded by `k in m`). -/
def lookupP {α : Type} (m : List (String × α)) (k : String) : Option α :=
  match m with
  | [] => Option.none
  | (k', v) :: rest => if k' = k then some v else lookupP rest k

/-- First loop of `_get_bound_args`: bind positional arguments in declared
parameter order (`zip(sig.parameters.keys(), args)` stops at the shorter). -/
def bindPositional {α : Type} (sig : List (Param α)) (args : List α) :
    List (String × α) :=
  (sig.map Param.name).zip args

/-- Second loop of `_get_bound_args`: add keyword arguments whose name occurs
in the signature (`if key in sig.parameters`), overwriting a positional
binding of the same name. -/
def addKwargs {α : Type} (sig : List (Param α)) (bound : List (String × α))
    (kwargs : List (String × α)) : List (String × α) :=
  kwargs.foldl
    (fun acc kv => if sig.any (fun p => p.name == kv.1) then dictInsert acc kv.1 kv.2 else acc)
    bound

/-- Third loop of `_get_bound_args`: fill in declared defaults for parameters
not bound yet, in declared parameter order. -/
def fillDefaults {α : Type} (sig : List (Param α)) (bound : List (String × α)) :
    List (String × α) :=
  sig.foldl
    (fun acc p =>
      match p.default with
      | some d => if acc.any (fun kv => kv.1 == p.name) then acc else acc ++ [(p.name, d)]
      | Option.none => acc)
    bound

/-- `_get_bound_args(sig, *args, **kwargs)` (chrono.py lines 19-37): positional
bindings, then keyword arguments, then declared defaults. -/
def get_bound_args {α : Type} (sig : List (Param α)) (args : List α)
    (kwargs : List (String × α)) : List (String × α) :=
  fillDefaults sig (addKwargs sig (bindPositional sig args) kwargs)

/-- `", ".join(f"{k}={v}" for k, v in bound_args.items())`. -/
def renderBound {α : Type} (render : α → String) (bound : List (String × α)) : String :=
  String.intercalate ", " (bound.map (fun kv => kv.1 ++ "=" ++ render kv.2))

/-- The decoration-time allow-list check of `Chronometer.f._decorator`
(chrono.py lines 367-375): with an explicit list, any requested name absent
from the function's parameters raises `ValueError` before the wrapped
function is ever constructed or called. -/
def decoratorCheck {α : Type} (sig : List (Param α)) (pk : PrintKwargs) :
    Except PyErr Unit :=
  match pk with
  | PrintKwargs.list l =>
    if l.any (fun k => !(sig.any (fun p => p.name == k))) then
      Except.error (PyErr.valueError "Not all print_kwargs found in parameters")
    else Except.ok ()
  | _ => Except.ok ()

/-- The key actually passed to the timing scope by `_inner` (chrono.py lines
377-395): with an allow-list, bind the call's arguments, re-check the
allow-list against the bound names (the defensive call-time check), and
append `" (with <k1>=<v1>, ...)"` in allow-list order; with the `"all"`
sentinel append every bound argument in binding order; with `None` the key is
unchanged. -/
def innerKey {α : Type} (render : α → String) (key : String) (sig : List (Param α))
    (pk : PrintKwargs) (args : List α) (kwargs : List (String × α)) :
    Except PyErr String :=
  match pk with
  | PrintKwargs.list l =>
    let bound := get_bound_args sig args kwargs
    if l.any (fun k => !(bound.any (fun kv => kv.1 == k))) then
      Except.error (PyErr.valueError "Not all print_kwargs found in bound_args")
    else
      Except.ok (key ++ " (with " ++
        renderBound render (l.filterMap (fun k => (lookupP bound k).map (fun v => (k, v)))) ++ ")")
  | PrintKwargs.all =>
    Except.ok (key ++ " (with " ++ renderBound render (get_bound_args sig args kwargs) ++ ")")
  | PrintKwargs.none => Except.ok key

/-- One call of a function decorated by `Chronometer.f(key, res, log, printer,
print_kwargs)` (after a successful decoration-time check). The `res`, `log`
and `printer` overrides are resolved against the instance defaults at
decoration time (chrono.py lines 363-365), but the resolved printer is *not*
forwarded to the timing scope — the source opens `with self(_inner_key,
res=res, log=log)` (line 397) without a printer argument, so the emitted line
always goes to the instance's default sink. A `ValueError` from the call-time
allow-list re-check propagates before the scope is entered. -/
def Chronometer.fCall {α : Type} (c : Chronometer) (render : α → String) (key : Key)
    (res : Option ℕ) (log : Option Bool) (pk : PrintKwargs)
    (sig : List (Param α)) (args : List α) (kwargs : List (String × α))
    (t1 t2 : ℚ) (blockExn : Option PyErr) : OpResult :=
  let r := resolveRes res c.res
  let lg := resolveLog log c.log
  match innerKey render key sig pk args kwargs with
  | Except.error e => { state := c, output := [], raised := some e }
  | Except.ok ik => c.callScope ik t1 t2 (some r) (some lg) Option.none blockExn

end Stopuhr

deriving instance DecidableEq for Except

namespace Stopuhr

/-- The concrete scenario of spec §8.8 / the `test_summary` test, with the
idealised measured durations: two unlogged scoped measurements of 0.1s and
0.3s under `"test"` and one of 0.2s under `"test2"` on a fresh default
Chronometer. -/
def scenarioTimer : Chronometer :=
  ((((Chronometer.init 0 2 true).callScope "test" 0 (1/10) Option.none (some false)
        Option.none Option.none).state.callScope "test" 0 (3/10) Option.none (some false)
        Option.none Option.none).state.callScope "test2" 0 (1/5) Option.none (some false)
        Option.none Option.none).state

/-- Fixture for the C5 witness: `A` with durations `x ↦ [1,2], y ↦ [3]` and a
pending start under `x`. -/
def mergeFixA : Chronometer := ⟨0, 2, true, [("x", [1, 2]), ("y", [3])], [("x", [9])]⟩

/-- Fixture for the C5 witness: `B` with durations `y ↦ [4], z ↦ [5]`. -/
def mergeFixB : Chronometer := ⟨1, 3, false, [("y", [4]), ("z", [5])], []⟩

/-- Fixture for the C6 witness. -/
def combineFixA : Chronometer := ⟨7, 4, false, [("y", [1])], [("w", [2])]⟩

/-- Fixture for the C6 witness. -/
def combineFixB : Chronometer := ⟨0, 2, true, [("y", [9]), ("z", [5])], []⟩

theorem lookupD_updateD_self (m : List (Key × List ℚ)) (k : Key) (f : List ℚ → List ℚ) :
    lookupD (updateD m k f) k = f (lookupD m k) := by
  induction m with
  | nil => simp [lookupD, updateD]
  | cons hd tl ih =>
    obtain ⟨k', v⟩ := hd
    by_cases h : k' = k
    · simp [lookupD, updateD, h]
    · simp [lookupD, updateD, h, ih]

theorem lookupD_updateD_ne (m : List (Key × List ℚ)) (k k' : Key) (f : List ℚ → List ℚ)
    (h : k' ≠ k) : lookupD (updateD m k f) k' = lookupD m k' := by
  have hne : k ≠ k' := Ne.symm h
  induction m with
  | nil => simp [lookupD, updateD, hne]
  | cons hd tl ih =>
    obtain ⟨k'', v⟩ := hd
    by_cases h2 : k'' = k
    · subst h2
      simp [lookupD, updateD, hne]
    · simp [lookupD, updateD, h2, ih]

theorem lookupD_eq_nil_of_not_mem (m : List (Key × List ℚ)) (k : Key)
    (h : k ∉ m.map Prod.fst) : lookupD m k = [] := by
  induction m with
  | nil => rfl
  | cons hd tl ih =>
    obtain ⟨k', v⟩ := hd
    simp only [List.map_cons, List.mem_cons] at h
    push_neg at h
    simp [lookupD, Ne.symm h.1, ih h.2]

theorem start_durations (c : Chronometer) (key : Key) (now : ℚ) :
    (c.start key now).durations = c.durations := rfl

theorem start_idling (c : Chronometer) (key : Key) (now : ℚ) :
    lookupD (c.start key now).idling_starts key = lookupD c.idling_starts key ++ [now] := by
  simp [Chronometer.start, lookupD_updateD_self]

end Stopuhr

namespace Stopuhr

theorem stop_of_pending (c : Chronometer) (key : Key) (now t : ℚ) (rest : List ℚ)
    (r : Option ℕ) (lg : Option Bool) (pr : Option Printer)
    (h : lookupD c.idling_starts key = t :: rest) :
    c.stop key now r lg pr =
      { state := { c with
          idling_starts := updateD c.idling_starts key (fun _ => rest),
          durations := updateD c.durations key (fun l => l ++ [now - t]) },
        output := if resolveLog lg c.log then
            [(resolvePrinter pr c.printer,
              key ++ " took " ++ formatFixed (now - t) (resolveRes r c.res) ++ "s")]
          else [],
        raised := Option.none } := by
  simp only [Chronometer.stop, h]

theorem stop_of_empty (c : Chronometer) (key : Key) (now : ℚ)
    (r : Option ℕ) (lg : Option Bool) (pr : Option Printer)
    (h : lookupD c.idling_starts key = []) :
    c.stop key now r lg pr =
      { state := c, output := [],
        raised := some (PyErr.valueError ("Key " ++ squote ++ key ++ squote ++ " not started!")) } := by
  simp only [Chronometer.stop, h]

theorem mergeFold_fields (l : List (Key × List ℚ)) (c : Chronometer) :
    (l.foldl (fun acc kv =>
        { acc with durations := updateD acc.durations kv.1 (fun x => x ++ kv.2) }) c).idling_starts
        = c.idling_starts
    ∧ (l.foldl (fun acc kv =>
        { acc with durations := updateD acc.durations kv.1 (fun x => x ++ kv.2) }) c).printer
        = c.printer
    ∧ (l.foldl (fun acc kv =>
        { acc with durations := updateD acc.durations kv.1 (fun x => x ++ kv.2) }) c).res
        = c.res
    ∧ (l.foldl (fun acc kv =>
        { acc with durations := updateD acc.durations kv.1 (fun x => x ++ kv.2) }) c).log
        = c.log := by
  induction l generalizing c with
  | nil => exact ⟨rfl, rfl, rfl, rfl⟩
  | cons hd tl ih => exact ih _

theorem mergeFold_lookup (l : List (Key × List ℚ)) (c : Chronometer) (k : Key)
    (hnd : (l.map Prod.fst).Nodup) :
    lookupD (l.foldl (fun acc kv =>
        { acc with durations := updateD acc.durations kv.1 (fun x => x ++ kv.2) }) c).durations k
      = lookupD c.durations k ++ lookupD l k := by
  induction l generalizing c with
  | nil => simp [lookupD]
  | cons hd tl ih =>
    obtain ⟨k1, v1⟩ := hd
    simp only [List.map_cons, List.nodup_cons] at hnd
    by_cases hk : k1 = k
    · subst hk
      rw [List.foldl_cons, ih _ hnd.2]
      have h2 : lookupD tl k1 = [] :=
        lookupD_eq_nil_of_not_mem tl k1 hnd.1
      simp [lookupD, h2, lookupD_updateD_self]
    · rw [List.foldl_cons, ih _ hnd.2]
      simp [lookupD, hk, lookupD_updateD_ne _ _ _ _ (Ne.symm hk)]

theorem merge_lookup (c o : Chronometer) (k : Key)
    (hnd : (o.durations.map Prod.fst).Nodup) :
    lookupD (c.merge o).durations k = lookupD c.durations k ++ lookupD o.durations k :=
  mergeFold_lookup o.durations c k hnd

theorem merge_fields (c o : Chronometer) :
    (c.merge o).idling_starts = c.idling_starts
    ∧ (c.merge o).printer = c.printer
    ∧ (c.merge o).res = c.res
    ∧ (c.merge o).log = c.log :=
  mergeFold_fields o.durations c

theorem combineFold_fields (l : List Chronometer) (c : Chronometer) :
    (l.foldl (fun acc t => acc.merge t) c).idling_starts = c.idling_starts
    ∧ (l.foldl (fun acc t => acc.merge t) c).printer = c.printer
    ∧ (l.foldl (fun acc t => acc.merge t) c).res = c.res
    ∧ (l.foldl (fun acc t => acc.merge t) c).log = c.log := by
  induction l generalizing c with
  | nil => exact ⟨rfl, rfl, rfl, rfl⟩
  | cons hd tl ih =>
    obtain ⟨h1, h2, h3, h4⟩ := ih (c.merge hd)
    obtain ⟨g1, g2, g3, g4⟩ := merge_fields c hd
    exact ⟨h1.trans g1, h2.trans g2, h3.trans g3, h4.trans g4⟩

theorem combineFold_lookup (l : List Chronometer) (c : Chronometer) (k : Key)
    (h : ∀ t ∈ l, (t.durations.map Prod.fst).Nodup) :
    lookupD (l.foldl (fun acc t => acc.merge t) c).durations k
      = lookupD c.durations k ++ (l.map (fun t => lookupD t.durations k)).flatten := by
  induction l generalizing c with
  | nil => simp
  | cons hd tl ih =>
    rw [List.foldl_cons, ih _ (fun t ht => h t (List.mem_cons_of_mem _ ht)),
      merge_lookup c hd k (h hd (List.mem_cons_self _ _))]
    simp [List.append_assoc]

end Stopuhr

namespace Stopuhr

theorem startStopPairs_ok (key : Key) (times : List (ℚ × ℚ)) :
    ∀ c : Chronometer, lookupD c.idling_starts key = [] →
      (startStopPairs c key times).raised = Option.none
      ∧ lookupD (startStopPairs c key times).state.idling_starts key = []
      ∧ (lookupD (startStopPairs c key times).state.durations key).length
          = (lookupD c.durations key).length + times.length := by
  induction times with
  | nil => intro c hp; exact ⟨rfl, hp, rfl⟩
  | cons hd tl ih =>
    obtain ⟨t1, t2⟩ := hd
    intro c hp
    have hstart : lookupD (c.start key t1).idling_starts key = [t1] := by
      rw [start_idling, hp]; rfl
    have hstop := stop_of_pending (c.start key t1) key t2 t1 []
      Option.none (some false) Option.none hstart
    simp only [startStopPairs, hstop]
    have hidle : lookupD (updateD (c.start key t1).idling_starts key (fun _ => [])) key = [] :=
      lookupD_updateD_self _ _ _
    have hdur : lookupD (updateD (c.start key t1).durations key (fun l => l ++ [t2 - t1])) key
        = lookupD c.durations key ++ [t2 - t1] := by
      rw [lookupD_updateD_self, start_durations]
    obtain ⟨r1, r2, r3⟩ := ih { c.start key t1 with
        idling_starts := updateD (c.start key t1).idling_starts key (fun _ => []),
        durations := updateD (c.start key t1).durations key (fun l => l ++ [t2 - t1]) } hidle
    refine ⟨r1, r2, ?_⟩
    rw [r3]
    simp [hdur]
    omega

end Stopuhr

namespace Stopuhr

/-- C1 counterexample: for the scoped-timing context manager, a block that
raises records *no* duration — refuting the claim that exactly one duration
is appended even when the wrapped code raises. Concretely: on a fresh
Chronometer, a scope for key `"k"` entered at time 0 whose block raises
leaves `durations["k"]` empty (length 0, not 1) while the exception
propagates. -/
theorem chrono_scope_exception_cex :
    ((Chronometer.init 0 2 true).callScope "k" 0 1 Option.none Option.none Option.none
        (some (PyErr.valueError "boom"))).raised = some (PyErr.valueError "boom")
    ∧ lookupD ((Chronometer.init 0 2 true).callScope "k" 0 1 Option.none Option.none Option.none
        (some (PyErr.valueError "boom"))).state.durations "k" = []
    ∧ (lookupD ((Chronometer.init 0 2 true).callScope "k" 0 1 Option.none Option.none Option.none
        (some (PyErr.valueError "boom"))).state.durations "k").length ≠ 1 := by
  with_unfolding_all decide

/-- C1 (amended): the scoped context manager records exactly one duration per
invocation whose block exits *normally*; when the block raises, no duration
is recorded, the pending start stays queued and the exception propagates
(`Chronometer.__call__` has no `finally` discipline around its `yield`). -/
theorem chrono_scope_records_once_on_normal_exit_only (c : Chronometer) (key : Key)
    (t1 t2 : ℚ) (r : Option ℕ) (lg : Option Bool) (pr : Option Printer) (e : PyErr) :
    ((lookupD (c.callScope key t1 t2 r lg pr Option.none).state.durations key).length
        = (lookupD c.durations key).length + 1
      ∧ (c.callScope key t1 t2 r lg pr Option.none).raised = Option.none)
    ∧ ((c.callScope key t1 t2 r lg pr (some e)).state.durations = c.durations
      ∧ lookupD (c.callScope key t1 t2 r lg pr (some e)).state.idling_starts key
          = lookupD c.idling_starts key ++ [t1]
      ∧ (c.callScope key t1 t2 r lg pr (some e)).raised = some e) := by
  constructor
  · have hpend : lookupD (c.start key t1).idling_starts key
        = lookupD c.idling_starts key ++ [t1] := start_idling c key t1
    rcases hh : lookupD c.idling_starts key with _ | ⟨t, pending⟩
    · have h1 : lookupD (c.start key t1).idling_starts key = t1 :: [] := by
        rw [hpend, hh]; rfl
      have hstop := stop_of_pending (c.start key t1) key t2 t1 [] r lg pr h1
      simp only [Chronometer.callScope, hstop]
      refine ⟨?_, trivial⟩
      rw [lookupD_updateD_self, start_durations]
      simp
    · have h1 : lookupD (c.start key t1).idling_starts key = t :: (pending ++ [t1]) := by
        rw [hpend, hh]; rfl
      have hstop := stop_of_pending (c.start key t1) key t2 t (pending ++ [t1]) r lg pr h1
      simp only [Chronometer.callScope, hstop]
      refine ⟨?_, trivial⟩
      rw [lookupD_updateD_self, start_durations]
      simp
  · exact ⟨rfl, start_idling c key t1, rfl⟩

/-- C2: `stop(key)` with an empty (or absent) pending queue for that key
raises a `ValueError` — a distinguishable usage error, not a silent no-op —
and leaves `durations` entirely unchanged, emitting nothing. -/
theorem chrono_stop_unmatched_fails (c : Chronometer) (key : Key) (now : ℚ)
    (r : Option ℕ) (lg : Option Bool) (pr : Option Printer)
    (h : lookupD c.idling_starts key = []) :
    (c.stop key now r lg pr).raised
        = some (PyErr.valueError ("Key " ++ squote ++ key ++ squote ++ " not started!"))
    ∧ (c.stop key now r lg pr).state.durations = c.durations
    ∧ (c.stop key now r lg pr).output = [] := by
  rw [stop_of_empty c key now r lg pr h]
  exact ⟨rfl, rfl, rfl⟩

/-- C2 witness: on a Chronometer where only `"other"` has been started,
`stop("missing")` raises the `ValueError` and changes no duration sequence. -/
theorem chrono_stop_unmatched_fails_witness :
    lookupD ((Chronometer.init 0 2 true).start "other" 0).idling_starts "missing" = []
    ∧ ((((Chronometer.init 0 2 true).start "other" 0).stop "missing" 1 Option.none Option.none
          Option.none).raised
        = some (PyErr.valueError ("Key " ++ squote ++ "missing" ++ squote ++ " not started!"))
      ∧ (((Chronometer.init 0 2 true).start "other" 0).stop "missing" 1 Option.none Option.none
          Option.none).state.durations = ((Chronometer.init 0 2 true).start "other" 0).durations
      ∧ (((Chronometer.init 0 2 true).start "other" 0).stop "missing" 1 Option.none Option.none
          Option.none).output = []) :=
  ⟨by with_unfolding_all decide,
    chrono_stop_unmatched_fails ((Chronometer.init 0 2 true).start "other" 0) "missing" 1
      Option.none Option.none Option.none (by with_unfolding_all decide)⟩

/-- C3 counterexample: `export()` on a Chronometer with no recorded keys does
*not* yield an empty table — it propagates the `ValueError` that `max()`
raises on an empty sequence. -/
theorem chrono_export_empty_cex :
    (Chronometer.init 0 2 true).export
        = Except.error (PyErr.valueError "max() arg is an empty sequence")
    ∧ (Chronometer.init 0 2 true).export ≠ Except.ok [] := by
  with_unfolding_all decide

/-- C3 (amended): `export()` on a Chronometer whose `durations` mapping is
empty propagates the computation fault of the numeric reduction over an empty
set (`ValueError` from `max()`); it does not return an empty table. -/
theorem chrono_export_empty_raises (c : Chronometer) (h : c.durations = []) :
    c.export = Except.error (PyErr.valueError "max() arg is an empty sequence") := by
  simp [Chronometer.export, h]

/-- C3 witness: the fresh Chronometer has empty `durations` and its `export`
raises. -/
theorem chrono_export_empty_raises_witness :
    (Chronometer.init 0 2 true).durations = []
    ∧ (Chronometer.init 0 2 true).export
        = Except.error (PyErr.valueError "max() arg is an empty sequence") :=
  ⟨rfl, chrono_export_empty_raises (Chronometer.init 0 2 true) rfl⟩

end Stopuhr

namespace Stopuhr

/-- C4: `start(key)` always succeeds and pushes exactly one timestamp onto
that key's pending queue (touching no duration); a successful `stop(key)`
pops exactly one timestamp — the oldest (FIFO) — and appends exactly one
duration to `durations[key]`; hence `n` `start`/`stop` pairs in strict
alternation (from an empty pending queue and an empty duration sequence for
the key) complete without error, leave `durations[key]` of length `n` and an
empty pending queue. -/
theorem chrono_start_stop_fifo_alternation (c cs : Chronometer) (key : Key)
    (now t : ℚ) (pending : List ℚ) (times : List (ℚ × ℚ))
    (hs : lookupD cs.idling_starts key = t :: pending)
    (hp : lookupD c.idling_starts key = [])
    (hd : lookupD c.durations key = []) :
    (lookupD (c.start key now).idling_starts key = lookupD c.idling_starts key ++ [now]
      ∧ (c.start key now).durations = c.durations)
    ∧ ((cs.stop key now Option.none Option.none Option.none).raised = Option.none
      ∧ lookupD (cs.stop key now Option.none Option.none Option.none).state.idling_starts key
          = pending
      ∧ lookupD (cs.stop key now Option.none Option.none Option.none).state.durations key
          = lookupD cs.durations key ++ [now - t])
    ∧ ((startStopPairs c key times).raised = Option.none
      ∧ (lookupD (startStopPairs c key times).state.durations key).length = times.length
      ∧ lookupD (startStopPairs c key times).state.idling_starts key = []) := by
  refine ⟨⟨start_idling c key now, start_durations c key now⟩, ?_, ?_⟩
  · rw [stop_of_pending cs key now t pending Option.none Option.none Option.none hs]
    exact ⟨rfl, lookupD_updateD_self _ _ _, lookupD_updateD_self _ _ _⟩
  · obtain ⟨r1, r2, r3⟩ := startStopPairs_ok key times c hp
    rw [hd] at r3
    exact ⟨r1, by rw [r3]; simp, r2⟩

/-- C4 witness: two pairs under key `"a"` on a fresh Chronometer, plus a
started state `cs` whose oldest pending start for `"a"` is 2. -/
theorem chrono_start_stop_fifo_alternation_witness :
    lookupD (((Chronometer.init 0 2 true).start "a" 2).start "a" 5).idling_starts "a" = 2 :: [5]
    ∧ lookupD (Chronometer.init 0 2 true).idling_starts "a" = []
    ∧ lookupD (Chronometer.init 0 2 true).durations "a" = []
    ∧ ((lookupD ((Chronometer.init 0 2 true).start "a" 1).idling_starts "a"
          = lookupD (Chronometer.init 0 2 true).idling_starts "a" ++ [1]
        ∧ ((Chronometer.init 0 2 true).start "a" 1).durations
          = (Chronometer.init 0 2 true).durations)
      ∧ (((((Chronometer.init 0 2 true).start "a" 2).start "a" 5).stop "a" 1 Option.none
            Option.none Option.none).raised = Option.none
        ∧ lookupD (((((Chronometer.init 0 2 true).start "a" 2).start "a" 5).stop "a" 1 Option.none
            Option.none Option.none).state.idling_starts) "a" = [5]
        ∧ lookupD (((((Chronometer.init 0 2 true).start "a" 2).start "a" 5).stop "a" 1 Option.none
            Option.none Option.none).state.durations) "a"
          = lookupD (((Chronometer.init 0 2 true).start "a" 2).start "a" 5).durations "a"
              ++ [1 - 2])
      ∧ ((startStopPairs (Chronometer.init 0 2 true) "a" [(0, 1), (3, 7)]).raised = Option.none
        ∧ (lookupD (startStopPairs (Chronometer.init 0 2 true) "a"
            [(0, 1), (3, 7)]).state.durations "a").length = [(0, 1), (3, 7)].length
        ∧ lookupD (startStopPairs (Chronometer.init 0 2 true) "a"
            [(0, 1), (3, 7)]).state.idling_starts "a" = [])) :=
  ⟨by with_unfolding_all decide, by with_unfolding_all decide, by with_unfolding_all decide,
    chrono_start_stop_fifo_alternation (Chronometer.init 0 2 true)
      (((Chronometer.init 0 2 true).start "a" 2).start "a" 5) "a" 1 2 [5] [(0, 1), (3, 7)]
      (by with_unfolding_all decide) (by with_unfolding_all decide) (by with_unfolding_all decide)⟩

/-- C5: `A.merge(B)` concatenates, for every key, `B`'s duration sequence
after `A`'s (creating the key if absent: `lookupD` reads an absent key as
`[]`), leaves `A`'s pending-start state and configuration untouched, and —
the model being pure — reads `B` without modifying it. -/
theorem chrono_merge_appends_other (A B : Chronometer) (k : Key)
    (hB : (B.durations.map Prod.fst).Nodup) :
    lookupD (A.merge B).durations k = lookupD A.durations k ++ lookupD B.durations k
    ∧ (A.merge B).idling_starts = A.idling_starts
    ∧ (A.merge B).printer = A.printer
    ∧ (A.merge B).res = A.res
    ∧ (A.merge B).log = A.log :=
  ⟨merge_lookup A B k hB, (merge_fields A B).1, (merge_fields A B).2.1,
    (merge_fields A B).2.2.1, (merge_fields A B).2.2.2⟩

/-- C5 witness: merging `mergeFixB` into `mergeFixA` concatenates at key `y`
and leaves `A`'s pending starts alone. -/
theorem chrono_merge_appends_other_witness :
    ((mergeFixB.durations.map Prod.fst).Nodup
      ∧ lookupD mergeFixA.durations "y" = [3]
      ∧ lookupD mergeFixB.durations "y" = [4])
    ∧ (lookupD (mergeFixA.merge mergeFixB).durations "y"
        = lookupD mergeFixA.durations "y" ++ lookupD mergeFixB.durations "y"
      ∧ (mergeFixA.merge mergeFixB).idling_starts = mergeFixA.idling_starts) :=
  ⟨⟨by with_unfolding_all decide, by with_unfolding_all decide, by with_unfolding_all decide⟩,
    (chrono_merge_appends_other mergeFixA mergeFixB "y" (by with_unfolding_all decide)).1,
    (chrono_merge_appends_other mergeFixA mergeFixB "y" (by with_unfolding_all decide)).2.1⟩

/-- C6: `combine` fails on an empty input; on `t0 :: rest` it returns a fresh
Chronometer carrying `t0`'s printer/res/log configuration, an empty pending
map, and durations equal to the concatenation, key by key, of every input's
sequences in listed order (every input, `t0` included, is merged into the
fresh instance; inputs are read-only). -/
theorem chrono_combine_fresh_and_ordered (t0 : Chronometer) (rest : List Chronometer) (k : Key)
    (h : ∀ t ∈ t0 :: rest, (t.durations.map Prod.fst).Nodup) :
    Chronometer.combine [] = Except.error (PyErr.indexError "tuple index out of range")
    ∧ ∃ c : Chronometer, Chronometer.combine (t0 :: rest) = Except.ok c
        ∧ c.printer = t0.printer ∧ c.res = t0.res ∧ c.log = t0.log
        ∧ c.idling_starts = []
        ∧ lookupD c.durations k
            = ((t0 :: rest).map (fun t => lookupD t.durations k)).flatten := by
  refine ⟨rfl, _, rfl, ?_, ?_, ?_, ?_, ?_⟩
  · exact (combineFold_fields (t0 :: rest) (Chronometer.init t0.printer t0.res t0.log)).2.1
  · exact (combineFold_fields (t0 :: rest) (Chronometer.init t0.printer t0.res t0.log)).2.2.1
  · exact (combineFold_fields (t0 :: rest) (Chronometer.init t0.printer t0.res t0.log)).2.2.2
  · exact (combineFold_fields (t0 :: rest) (Chronometer.init t0.printer t0.res t0.log)).1
  · rw [combineFold_lookup (t0 :: rest) (Chronometer.init t0.printer t0.res t0.log) k h]
    rfl

/-- C6 witness: combining `[combineFixA, combineFixB]` at key `"y"`. -/
theorem chrono_combine_fresh_and_ordered_witness :
    (∀ t ∈ [combineFixA, combineFixB], (t.durations.map Prod.fst).Nodup)
    ∧ (Chronometer.combine [] = Except.error (PyErr.indexError "tuple index out of range")
      ∧ ∃ c : Chronometer, Chronometer.combine [combineFixA, combineFixB] = Except.ok c
          ∧ c.printer = combineFixA.printer ∧ c.res = combineFixA.res
          ∧ c.log = combineFixA.log
          ∧ c.idling_starts = []
          ∧ lookupD c.durations "y"
              = ([combineFixA, combineFixB].map (fun t => lookupD t.durations "y")).flatten) :=
  ⟨by with_unfolding_all decide,
    chrono_combine_fresh_and_ordered combineFixA [combineFixB] "y"
      (by with_unfolding_all decide)⟩

end Stopuhr

namespace Stopuhr

/-- C7: `summary()` emits one line per key of `durations` in key-iteration
order; the line is chosen by a three-way branch — the no-durations message
for an empty sequence, the single-value form (which never touches the
standard-deviation computation) for a one-element sequence, and otherwise
`mean ± Bessel-corrected sample stdev` with `n` and `total`, all to `res`
digits. On the concrete scenario (`[0.1, 0.3]` under `"test"`, `[0.2]` under
`"test2"`), `summary(res=1)` emits exactly
`"test took 0.2 ± 0.1s (n=2 -> total=0.4s)"` then `"test2 took 0.2s"`. -/
theorem chrono_summary_branches_and_scenario (c : Chronometer) (r : Option ℕ)
    (pr : Option Printer) (key : Key) (v v2 : ℚ) (vs : List ℚ) (res : ℕ) :
    c.summary r pr = c.durations.map (fun kv =>
        (resolvePrinter pr c.printer, summaryLine kv.1 kv.2 (resolveRes r c.res)))
    ∧ summaryLine key [] res = key ++ " has no durations recorded"
    ∧ summaryLine key [v] res = key ++ " took " ++ formatFixed v res ++ "s"
    ∧ summaryLine key (v :: v2 :: vs) res
        = key ++ " took " ++ formatFixed ((v :: v2 :: vs).sum / ((v :: v2 :: vs).length : ℚ)) res
          ++ " ± " ++ formatSqrtFixed (sampleVariance (v :: v2 :: vs)) res
          ++ "s (n=" ++ toString (v :: v2 :: vs).length
          ++ " -> total=" ++ formatFixed (v :: v2 :: vs).sum res ++ "s)"
    ∧ scenarioTimer.summary (some 1) Option.none
        = [(0, "test took 0.2 ± 0.1s (n=2 -> total=0.4s)"), (0, "test2 took 0.2s")] :=
  ⟨rfl, rfl, rfl, rfl, by with_unfolding_all decide⟩

end Stopuhr

namespace Stopuhr

theorem any_key_mem {α : Type} (m : List (String × α)) (k : String) :
    (m.any (fun kv => kv.1 == k)) = true ↔ k ∈ m.map Prod.fst := by
  rw [List.any_eq_true]
  constructor
  · rintro ⟨kv, hkv, hbeq⟩
    rw [beq_iff_eq] at hbeq
    exact hbeq ▸ List.mem_map_of_mem Prod.fst hkv
  · intro h
    obtain ⟨kv, hkv, hfst⟩ := List.mem_map.mp h
    exact ⟨kv, hkv, by rw [beq_iff_eq]; exact hfst⟩

theorem any_name_mem {α : Type} (sig : List (Param α)) (k : String) :
    (sig.any (fun p => p.name == k)) = true ↔ k ∈ sig.map Param.name := by
  rw [List.any_eq_true]
  constructor
  · rintro ⟨p, hp, hbeq⟩
    rw [beq_iff_eq] at hbeq
    exact hbeq ▸ List.mem_map_of_mem Param.name hp
  · intro h
    obtain ⟨p, hp, hname⟩ := List.mem_map.mp h
    exact ⟨p, hp, by rw [beq_iff_eq]; exact hname⟩

theorem fillDefaults_of_all_bound {α : Type} (sig : List (Param α))
    (bound : List (String × α)) (h : ∀ p ∈ sig, p.name ∈ bound.map Prod.fst) :
    fillDefaults sig bound = bound := by
  induction sig with
  | nil => rfl
  | cons p tl ih =>
    have hb : (bound.any (fun kv => kv.1 == p.name)) = true :=
      (any_key_mem bound p.name).mpr (h p (List.mem_cons_self _ _))
    simp only [fillDefaults, List.foldl_cons]
    cases hd : p.default with
    | none =>
      simp only [hd]
      exact ih (fun q hq => h q (List.mem_cons_of_mem _ hq))
    | some d =>
      simp only [hd, hb, if_true]
      exact ih (fun q hq => h q (List.mem_cons_of_mem _ hq))

theorem get_bound_args_positional {α : Type} (sig : List (Param α)) (args : List α)
    (hlen : args.length = sig.length) :
    get_bound_args sig args [] = (sig.map Param.name).zip args := by
  have hkeys : ((sig.map Param.name).zip args).map Prod.fst = sig.map Param.name :=
    List.map_fst_zip _ _ (by simp [hlen])
  simp only [get_bound_args, addKwargs, List.foldl_nil, bindPositional]
  exact fillDefaults_of_all_bound sig _ (fun p hp => by
    rw [hkeys]; exact List.mem_map_of_mem Param.name hp)

theorem lookupP_dictInsert_self {α : Type} (m : List (String × α)) (k : String) (v : α) :
    lookupP (dictInsert m k v) k = some v := by
  induction m with
  | nil => simp [dictInsert, lookupP]
  | cons hd tl ih =>
    obtain ⟨k', v'⟩ := hd
    by_cases h : k' = k
    · simp [dictInsert, lookupP, h]
    · simp [dictInsert, lookupP, h, ih]

theorem lookupP_append_of_some {α : Type} (m l : List (String × α)) (k : String) (v : α)
    (h : lookupP m k = some v) : lookupP (m ++ l) k = some v := by
  induction m with
  | nil => simp [lookupP] at h
  | cons hd tl ih =>
    obtain ⟨k', v'⟩ := hd
    by_cases hk : k' = k
    · simp only [lookupP, hk, if_pos rfl] at h
      simp only [List.cons_append, lookupP, if_pos hk]
      exact h
    · simp only [lookupP, hk, if_neg hk] at h
      simp only [List.cons_append, lookupP, if_neg hk]
      exact ih h

theorem lookupP_fillDefaults_of_some {α : Type} (sig : List (Param α))
    (bound : List (String × α)) (k : String) (v : α) (h : lookupP bound k = some v) :
    lookupP (fillDefaults sig bound) k = some v := by
  induction sig generalizing bound with
  | nil => exact h
  | cons p tl ih =>
    simp only [fillDefaults, List.foldl_cons]
    cases hd : p.default with
    | none =>
      simp only [hd]
      exact ih bound h
    | some d =>
      simp only [hd]
      by_cases hb : (bound.any (fun kv => kv.1 == p.name)) = true
      · simp only [hb, if_true]
        exact ih bound h
      · simp only [Bool.not_eq_true] at hb
        simp only [hb, Bool.false_eq_true, if_false]
        exact ih _ (lookupP_append_of_some bound _ k v h)

theorem get_bound_args_kwarg {α : Type} (sig : List (Param α)) (args : List α)
    (k : String) (v : α) (hk : k ∈ sig.map Param.name) :
    lookupP (get_bound_args sig args [(k, v)]) k = some v := by
  have hsig : (sig.any (fun p => p.name == k)) = true := (any_name_mem sig k).mpr hk
  simp only [get_bound_args, addKwargs, List.foldl_cons, List.foldl_nil, hsig, if_true]
  exact lookupP_fillDefaults_of_some _ _ _ _ (lookupP_dictInsert_self _ _ _)

theorem fillDefaults_append_defaults {α : Type} (sig : List (Param α))
    (bound : List (String × α))
    (hnd : (sig.map Param.name).Nodup)
    (hdisj : ∀ p ∈ sig, p.name ∉ bound.map Prod.fst) :
    fillDefaults sig bound
      = bound ++ sig.filterMap (fun p => p.default.map (fun d => (p.name, d))) := by
  induction sig generalizing bound with
  | nil => simp [fillDefaults]
  | cons p tl ih =>
    simp only [List.map_cons, List.nodup_cons] at hnd
    have hpb : (bound.any (fun kv => kv.1 == p.name)) = false := by
      rw [← Bool.not_eq_true, any_key_mem]
      exact hdisj p (List.mem_cons_self _ _)
    simp only [fillDefaults, List.foldl_cons]
    cases hd : p.default with
    | none =>
      simp only [hd]
      exact (ih bound hnd.2 (fun q hq => hdisj q (List.mem_cons_of_mem _ hq))).trans
        (by simp [List.filterMap_cons, hd])
    | some d =>
      simp only [hd, hpb, Bool.false_eq_true, if_false]
      have hdisj2 : ∀ q ∈ tl, q.name ∉ (bound ++ [(p.name, d)]).map Prod.fst := by
        intro q hq
        have hq1 : q.name ∉ bound.map Prod.fst := hdisj q (List.mem_cons_of_mem _ hq)
        have hq2 : q.name ≠ p.name := by
          intro he
          exact hnd.1 (he ▸ List.mem_map_of_mem Param.name hq)
        simp [hq1, hq2]
      exact (ih (bound ++ [(p.name, d)]) hnd.2 hdisj2).trans
        (by simp [List.filterMap_cons, hd, List.append_assoc])

theorem get_bound_args_defaults {α : Type} (sig : List (Param α))
    (hnd : (sig.map Param.name).Nodup) :
    get_bound_args sig [] []
      = sig.filterMap (fun p => p.default.map (fun d => (p.name, d))) := by
  have hz : bindPositional sig [] = [] := by simp [bindPositional]
  simp only [get_bound_args, addKwargs, List.foldl_nil, hz]
  rw [fillDefaults_append_defaults sig [] hnd (by simp)]
  simp

theorem innerKey_list_ok {α : Type} (render : α → String) (key : String)
    (sig : List (Param α)) (args : List α) (l : List String)
    (hlen : args.length = sig.length)
    (hsub : ∀ k ∈ l, k ∈ sig.map Param.name) :
    innerKey render key sig (PrintKwargs.list l) args []
      = Except.ok (key ++ " (with " ++
          renderBound render (l.filterMap (fun k =>
            (lookupP ((sig.map Param.name).zip args) k).map (fun v => (k, v)))) ++ ")") := by
  have hbound : get_bound_args sig args [] = (sig.map Param.name).zip args :=
    get_bound_args_positional sig args hlen
  have hkeys : ((sig.map Param.name).zip args).map Prod.fst = sig.map Param.name :=
    List.map_fst_zip _ _ (by simp [hlen])
  have hchk : (l.any (fun k =>
      !(((sig.map Param.name).zip args).any (fun kv => kv.1 == k)))) = false := by
    rw [List.any_eq_false]
    intro k hk
    have hmem : (((List.map Param.name sig).zip args).any fun kv => kv.1 == k) = true :=
      (any_key_mem _ _).mpr (by rw [hkeys]; exact hsub k hk)
    simp [hmem]
  simp only [innerKey, hbound, hchk, Bool.false_eq_true, if_false]

end Stopuhr

namespace Stopuhr

/-- C8: the argument-echoing decorator binds positional arguments in declared
parameter order (a full positional call binds exactly `names zip args`), then
keyword arguments (a keyword for a signature name wins and is readable back),
then declared defaults for parameters not supplied (a no-argument call binds
exactly the defaulted parameters, in declared order); with an allow-list the
key is extended with exactly the allow-listed names in allow-list order,
rendered `"<key> (with <n1>=<v1>, ...)"`. Concretely, decorating `f(a, b, c)`
with key `"test"` and allow-list `["a", "c"]` and calling `f(1, 2, 3)` on a
fresh default Chronometer emits `"test (with a=1, c=3) took 0.10s"`. -/
theorem chrono_f_binding_and_echo {α : Type} (render : α → String) (key : String)
    (sig : List (Param α)) (args : List α) (l : List String) (k : String) (v : α)
    (hlen : args.length = sig.length)
    (hnd : (sig.map Param.name).Nodup)
    (hsub : ∀ k' ∈ l, k' ∈ sig.map Param.name)
    (hk : k ∈ sig.map Param.name) :
    get_bound_args sig args [] = (sig.map Param.name).zip args
    ∧ lookupP (get_bound_args sig args [(k, v)]) k = some v
    ∧ get_bound_args sig [] [] = sig.filterMap (fun p => p.default.map (fun d => (p.name, d)))
    ∧ innerKey render key sig (PrintKwargs.list l) args []
        = Except.ok (key ++ " (with " ++
            renderBound render (l.filterMap (fun k' =>
              (lookupP ((sig.map Param.name).zip args) k').map (fun w => (k', w)))) ++ ")")
    ∧ ((Chronometer.init 0 2 true).fCall (fun n : ℕ => toString n) "test" Option.none Option.none
          (PrintKwargs.list ["a", "c"])
          [⟨"a", Option.none⟩, ⟨"b", Option.none⟩, ⟨"c", Option.none⟩] [1, 2, 3] []
          0 (1/10) Option.none).output
        = [(0, "test (with a=1, c=3) took 0.10s")] :=
  ⟨get_bound_args_positional sig args hlen,
    get_bound_args_kwarg sig args k v hk,
    get_bound_args_defaults sig hnd,
    innerKey_list_ok render key sig args l hlen hsub,
    by with_unfolding_all decide⟩

/-- C8 witness: the theorem instantiated at `f(a, b=9, c)` (with a default
for `b`) called positionally with `[1, 2, 3]`, allow-list `["a", "c"]`,
keyword name `"b"`. -/
theorem chrono_f_binding_and_echo_witness :
    (([(3 : ℕ), 4, 5].length = ([⟨"a", Option.none⟩, ⟨"b", some 9⟩, ⟨"c", Option.none⟩]
          : List (Param ℕ)).length)
      ∧ (([⟨"a", Option.none⟩, ⟨"b", some (9 : ℕ)⟩, ⟨"c", Option.none⟩]
          : List (Param ℕ)).map Param.name).Nodup
      ∧ (∀ k' ∈ ["a", "c"], k' ∈ ([⟨"a", Option.none⟩, ⟨"b", some (9 : ℕ)⟩, ⟨"c", Option.none⟩]
          : List (Param ℕ)).map Param.name)
      ∧ "b" ∈ ([⟨"a", Option.none⟩, ⟨"b", some (9 : ℕ)⟩, ⟨"c", Option.none⟩]
          : List (Param ℕ)).map Param.name)
    ∧ (get_bound_args [⟨"a", Option.none⟩, ⟨"b", some (9 : ℕ)⟩, ⟨"c", Option.none⟩] [3, 4, 5] []
        = (([⟨"a", Option.none⟩, ⟨"b", some (9 : ℕ)⟩, ⟨"c", Option.none⟩]
            : List (Param ℕ)).map Param.name).zip [3, 4, 5]
      ∧ lookupP (get_bound_args [⟨"a", Option.none⟩, ⟨"b", some (9 : ℕ)⟩, ⟨"c", Option.none⟩]
          [3, 4, 5] [("b", 7)]) "b" = some 7
      ∧ get_bound_args [⟨"a", Option.none⟩, ⟨"b", some (9 : ℕ)⟩, ⟨"c", Option.none⟩] [] []
        = ([⟨"a", Option.none⟩, ⟨"b", some (9 : ℕ)⟩, ⟨"c", Option.none⟩]
            : List (Param ℕ)).filterMap (fun p => p.default.map (fun d => (p.name, d)))
      ∧ innerKey (fun n : ℕ => toString n) "test"
          [⟨"a", Option.none⟩, ⟨"b", some 9⟩, ⟨"c", Option.none⟩]
          (PrintKwargs.list ["a", "c"]) [3, 4, 5] []
        = Except.ok ("test" ++ " (with " ++
            renderBound (fun n : ℕ => toString n) (["a", "c"].filterMap (fun k' =>
              (lookupP ((([⟨"a", Option.none⟩, ⟨"b", some (9 : ℕ)⟩, ⟨"c", Option.none⟩]
                  : List (Param ℕ)).map Param.name).zip [3, 4, 5]) k').map
                (fun w => (k', w)))) ++ ")")
      ∧ ((Chronometer.init 0 2 true).fCall (fun n : ℕ => toString n) "test" Option.none
            Option.none (PrintKwargs.list ["a", "c"])
            [⟨"a", Option.none⟩, ⟨"b", Option.none⟩, ⟨"c", Option.none⟩] [1, 2, 3] []
            0 (1/10) Option.none).output
          = [(0, "test (with a=1, c=3) took 0.10s")]) :=
  ⟨⟨by with_unfolding_all decide, by with_unfolding_all decide,
      by with_unfolding_all decide, by with_unfolding_all decide⟩,
    chrono_f_binding_and_echo (fun n : ℕ => toString n) "test"
      [⟨"a", Option.none⟩, ⟨"b", some 9⟩, ⟨"c", Option.none⟩] [3, 4, 5] ["a", "c"] "b" 7
      (by with_unfolding_all decide) (by with_unfolding_all decide)
      (by with_unfolding_all decide) (by with_unfolding_all decide)⟩

/-- C9: decorating with an allow-list that contains a name absent from the
wrapped function's declared parameters raises a `ValueError` at decoration
time (inside `_decorator`, before `_inner` — the function actually called —
is even constructed). -/
theorem chrono_f_allowlist_decoration_error {α : Type} (sig : List (Param α))
    (l : List String) (k : String) (hk : k ∈ l) (habs : k ∉ sig.map Param.name) :
    decoratorCheck sig (PrintKwargs.list l)
      = Except.error (PyErr.valueError "Not all print_kwargs found in parameters") := by
  have hany : (l.any (fun k' => !(sig.any (fun p => p.name == k')))) = true := by
    rw [List.any_eq_true]
    refine ⟨k, hk, ?_⟩
    have hfalse : (sig.any (fun p => p.name == k)) = false := by
      rw [List.any_eq_false]
      intro p hp
      rw [beq_iff_eq]
      intro he
      exact habs (he ▸ List.mem_map_of_mem Param.name hp)
    simp [hfalse]
  simp [decoratorCheck, hany]

/-- C9 witness: allow-list `["a", "zz"]` against signature `f(a)`. -/
theorem chrono_f_allowlist_decoration_error_witness :
    ("zz" ∈ ["a", "zz"]
      ∧ "zz" ∉ ([⟨"a", Option.none⟩] : List (Param ℕ)).map Param.name)
    ∧ decoratorCheck ([⟨"a", Option.none⟩] : List (Param ℕ)) (PrintKwargs.list ["a", "zz"])
      = Except.error (PyErr.valueError "Not all print_kwargs found in parameters") :=
  ⟨⟨by with_unfolding_all decide, by with_unfolding_all decide⟩,
    chrono_f_allowlist_decoration_error ([⟨"a", Option.none⟩] : List (Param ℕ)) ["a", "zz"] "zz"
      (by with_unfolding_all decide) (by with_unfolding_all decide)⟩

/-- C10: because the per-call precision override is tested by truthiness
(`res = res or self.res`), an explicit override of `0` is silently ignored in
`stop`, `summary` and the decorator `f`: each behaves exactly as if no
override had been passed, and on a started key `stop(key, res=0)` formats the
emitted duration with the instance default `c.res` (= `d ≠ 0`) fractional
digits instead of 0. -/
theorem chrono_res_zero_override_ignored {α : Type} (c : Chronometer) (key : Key)
    (now t t1 t2 : ℚ) (pending : List ℚ) (lg : Option Bool) (pr : Option Printer)
    (render : α → String) (pk : PrintKwargs) (sig : List (Param α)) (args : List α)
    (kwargs : List (String × α)) (exn : Option PyErr)
    (hres : c.res ≠ 0)
    (hp : lookupD c.idling_starts key = t :: pending) :
    resolveRes (some 0) c.res = c.res
    ∧ c.stop key now (some 0) lg pr = c.stop key now Option.none lg pr
    ∧ c.summary (some 0) pr = c.summary Option.none pr
    ∧ c.fCall render key (some 0) lg pk sig args kwargs t1 t2 exn
        = c.fCall render key Option.none lg pk sig args kwargs t1 t2 exn
    ∧ (c.stop key now (some 0) lg pr).output
        = (if resolveLog lg c.log then
            [(resolvePrinter pr c.printer,
              key ++ " took " ++ formatFixed (now - t) c.res ++ "s")]
          else []) := by
  refine ⟨rfl, rfl, rfl, rfl, ?_⟩
  rw [stop_of_pending c key now t pending (some 0) lg pr hp]
  rfl

/-- C10 witness: a Chronometer with default precision 3 and a pending start
for `"k"`; `stop("k", res=0)` emits with 3 fractional digits. -/
theorem chrono_res_zero_override_ignored_witness :
    ((((Chronometer.init 5 3 true).start "k" 2).res ≠ 0)
      ∧ lookupD ((Chronometer.init 5 3 true).start "k" 2).idling_starts "k" = [2])
    ∧ (resolveRes (some 0) ((Chronometer.init 5 3 true).start "k" 2).res
        = ((Chronometer.init 5 3 true).start "k" 2).res
      ∧ ((Chronometer.init 5 3 true).start "k" 2).stop "k" 3 (some 0) Option.none Option.none
        = ((Chronometer.init 5 3 true).start "k" 2).stop "k" 3 Option.none Option.none Option.none
      ∧ ((Chronometer.init 5 3 true).start "k" 2).summary (some 0) Option.none
        = ((Chronometer.init 5 3 true).start "k" 2).summary Option.none Option.none
      ∧ ((Chronometer.init 5 3 true).start "k" 2).fCall (fun n : ℕ => toString n) "k" (some 0)
          Option.none PrintKwargs.none [] [] [] 0 1 Option.none
        = ((Chronometer.init 5 3 true).start "k" 2).fCall (fun n : ℕ => toString n) "k"
          Option.none Option.none PrintKwargs.none [] [] [] 0 1 Option.none
      ∧ (((Chronometer.init 5 3 true).start "k" 2).stop "k" 3 (some 0) Option.none
            Option.none).output
        = (if resolveLog Option.none ((Chronometer.init 5 3 true).start "k" 2).log then
            [(resolvePrinter Option.none ((Chronometer.init 5 3 true).start "k" 2).printer,
              "k" ++ " took "
                ++ formatFixed (3 - 2) ((Chronometer.init 5 3 true).start "k" 2).res ++ "s")]
          else [])) :=
  ⟨⟨by with_unfolding_all decide, by with_unfolding_all decide⟩,
    chrono_res_zero_override_ignored ((Chronometer.init 5 3 true).start "k" 2) "k" 3 2 0 1 []
      Option.none Option.none (fun n : ℕ => toString n) PrintKwargs.none [] [] [] Option.none
      (by with_unfolding_all decide) (by with_unfolding_all decide)⟩

end Stopuhr

namespace Stopuhr

theorem ratFloor_eq_floor (q : ℚ) : ratFloor q = ⌊q⌋ := by
  rw [Rat.floor_def, ratFloor, Int.fdiv_eq_ediv]
  positivity

/-- `roundHalfEven` really is a nearest-integer rounding: it never deviates
from its argument by more than one half. -/
theorem roundHalfEven_dist (q : ℚ) : |q - (roundHalfEven q : ℚ)| ≤ 1/2 := by
  have hf : ((ratFloor q : ℚ)) ≤ q := by
    rw [ratFloor_eq_floor]; exact Int.floor_le q
  have hf2 : q < (ratFloor q : ℚ) + 1 := by
    rw [ratFloor_eq_floor]; exact Int.lt_floor_add_one q
  unfold roundHalfEven
  by_cases h1 : q - (ratFloor q : ℚ) < 1/2
  · simp only [h1, if_true]
    rw [abs_of_nonneg (by linarith)]
    linarith
  · by_cases h2 : 1/2 < q - (ratFloor q : ℚ)
    · simp only [h1, h2, if_false, if_true]
      rw [abs_of_nonpos (by push_cast; linarith)]
      push_cast
      linarith
    · have heq : q - (ratFloor q : ℚ) = 1/2 := by linarith
      by_cases h3 : ratFloor q % 2 = 0
      · simp only [h1, h2, h3, if_false, if_true]
        rw [abs_of_nonneg (by linarith)]
        linarith
      · simp only [h1, h2, h3, if_false]
        rw [abs_of_nonpos (by push_cast; linarith)]
        push_cast
        linarith

theorem sqrtDivHalfUp_bounds (N q : ℕ) (hq : 0 < q) :
    4 * N < ((2 * ((Nat.sqrt (4 * N) + q) / (2 * q)) + 1) * q) ^ 2
    ∧ (1 ≤ (Nat.sqrt (4 * N) + q) / (2 * q) →
        ((2 * ((Nat.sqrt (4 * N) + q) / (2 * q)) - 1) * q) ^ 2 ≤ 4 * N) := by
  have hs1 : Nat.sqrt (4 * N) ^ 2 ≤ 4 * N := Nat.sqrt_le' (4 * N)
  have hs2 : 4 * N < (Nat.sqrt (4 * N) + 1) ^ 2 := Nat.lt_succ_sqrt' (4 * N)
  have hdm := Nat.div_add_mod (Nat.sqrt (4 * N) + q) (2 * q)
  have hmod := Nat.mod_lt (Nat.sqrt (4 * N) + q) (by omega : 0 < 2 * q)
  constructor
  · have h3 : Nat.sqrt (4 * N) + 1
        ≤ (2 * ((Nat.sqrt (4 * N) + q) / (2 * q)) + 1) * q := by nlinarith
    calc 4 * N < (Nat.sqrt (4 * N) + 1) ^ 2 := hs2
      _ ≤ ((2 * ((Nat.sqrt (4 * N) + q) / (2 * q)) + 1) * q) ^ 2 :=
        Nat.pow_le_pow_left h3 2
  · intro h1
    obtain ⟨m, hm⟩ := Nat.exists_eq_add_of_le h1
    rw [hm]
    have hsub : 2 * (1 + m) - 1 = 2 * m + 1 := by omega
    rw [hsub]
    have h4 : (2 * m + 1) * q ≤ Nat.sqrt (4 * N) := by
      rw [hm] at hdm
      have h5 : 2 * q * (1 + m) ≤ Nat.sqrt (4 * N) + q := Nat.le.intro hdm
      have hexp : (2 * m + 1) * q + q = 2 * q * (1 + m) := by ring
      exact Nat.le_of_add_le_add_right (hexp ▸ h5)
    calc ((2 * m + 1) * q) ^ 2 ≤ Nat.sqrt (4 * N) ^ 2 := Nat.pow_le_pow_left h4 2
      _ ≤ 4 * N := hs1

end Stopuhr

namespace Stopuhr

/-- `sqrtRoundHE w` really is a nearest-integer value for the square root of
`w`: writing `n = sqrtRoundHE w`, the value `4 * w` lies between `(2n - 1)^2`
and `(2n + 1)^2` (the lower bound degenerating when `n = 0`), i.e.
`n - 1/2 ≤ sqrt w ≤ n + 1/2`. Hence `formatSqrtFixed v res` renders exactly
the half-even rounding of `sqrt v * 10^res` that Python's
`f"{stdev:.{res}f}"` produces on the idealised value. -/
theorem sqrtRoundHE_spec (w : ℚ) (hw : 0 ≤ w) :
    ((2 * (sqrtRoundHE w : ℚ) - 1) ^ 2 ≤ 4 * w ∨ sqrtRoundHE w = 0)
    ∧ 4 * w ≤ (2 * (sqrtRoundHE w : ℚ) + 1) ^ 2 := by
  set p := w.num.toNat with hp
  set q := w.den with hqd
  have hq : 0 < q := w.pos
  have hqq : (0:ℚ) < (q : ℚ) ^ 2 := by positivity
  have hpq : ((p : ℚ)) = w * (q : ℚ) := by
    have hden : ((w.den : ℚ)) ≠ 0 := by positivity
    have h1 : ((w.num : ℚ)) = w * (w.den : ℚ) :=
      (div_eq_iff hden).mp (Rat.num_div_den w)
    have hnum : ((w.num.toNat : ℤ)) = w.num := Int.toNat_of_nonneg (Rat.num_nonneg.mpr hw)
    rw [hp, hqd, ← h1]
    exact_mod_cast congrArg (fun z : ℤ => (z : ℚ)) hnum
  set hu := (Nat.sqrt (4 * (p * q)) + q) / (2 * q) with hhu
  have hdef : sqrtRoundHE w =
      if 4 * (p * q) = ((2 * hu - 1) * q) ^ 2 ∧ hu % 2 = 1 then hu - 1 else hu := rfl
  obtain ⟨hA, hB⟩ := sqrtDivHalfUp_bounds (p * q) q hq
  have hcast_le : ∀ a : ℕ, (4 * (p * q) ≤ (a * q) ^ 2) → (4 * w ≤ ((a : ℚ)) ^ 2) := by
    intro a ha
    have h1 : (4:ℚ) * ((p:ℚ) * (q:ℚ)) ≤ ((a:ℚ) * (q:ℚ))^2 := by exact_mod_cast ha
    rw [hpq] at h1
    have h2 : (4:ℚ) * w * (q:ℚ)^2 ≤ (a:ℚ)^2 * (q:ℚ)^2 := by nlinarith [h1]
    exact le_of_mul_le_mul_right h2 hqq
  have hcast_ge : ∀ a : ℕ, ((a * q) ^ 2 ≤ 4 * (p * q)) → (((a : ℚ)) ^ 2 ≤ 4 * w) := by
    intro a ha
    have h1 : ((a:ℚ) * (q:ℚ))^2 ≤ (4:ℚ) * ((p:ℚ) * (q:ℚ)) := by exact_mod_cast ha
    rw [hpq] at h1
    have h2 : (a:ℚ)^2 * (q:ℚ)^2 ≤ (4:ℚ) * w * (q:ℚ)^2 := by nlinarith [h1]
    exact le_of_mul_le_mul_right h2 hqq
  by_cases htie : 4 * (p * q) = ((2 * hu - 1) * q) ^ 2 ∧ hu % 2 = 1
  · obtain ⟨hteq, hodd⟩ := htie
    have hu1 : 1 ≤ hu := Nat.pos_of_ne_zero (fun h0 => by rw [h0] at hodd; simp at hodd)
    obtain ⟨m, hm⟩ := Nat.exists_eq_add_of_le hu1
    have hsub : 2 * hu - 1 = 2 * m + 1 := by omega
    have hn : sqrtRoundHE w = m := by
      rw [hdef, if_pos ⟨hteq, hodd⟩]
      omega
    rw [hsub] at hteq
    have h1 : ((2 * (m:ℚ) + 1) * (q:ℚ))^2 = (4:ℚ) * ((p:ℚ) * (q:ℚ)) := by
      exact_mod_cast hteq.symm
    rw [hpq] at h1
    have h2 : (2 * (m:ℚ) + 1)^2 * (q:ℚ)^2 = (4:ℚ) * w * (q:ℚ)^2 := by nlinarith [h1]
    have h4w : (2 * (m:ℚ) + 1)^2 = (4:ℚ) * w := mul_right_cancel₀ hqq.ne' h2
    rw [hn]
    constructor
    · left
      rw [← h4w]
      have hm0 : (0:ℚ) ≤ (m:ℚ) := by positivity
      nlinarith
    · rw [← h4w]
  · have hn : sqrtRoundHE w = hu := by rw [hdef, if_neg htie]
    rw [hn]
    constructor
    · rcases Nat.eq_zero_or_pos hu with h0 | h1
      · right; exact h0
      · left
        have hle := hB h1
        obtain ⟨m, hm⟩ := Nat.exists_eq_add_of_le h1
        have hsub : 2 * hu - 1 = 2 * m + 1 := by omega
        rw [hsub] at hle
        have := hcast_ge (2 * m + 1) hle
        have hmu : (hu : ℚ) = (m : ℚ) + 1 := by rw [hm]; push_cast; ring
        rw [hmu]
        push_cast at this ⊢
        nlinarith [this]
    · have := hcast_le (2 * hu + 1) hA.le
      push_cast at this ⊢
      nlinarith [this]

end Stopuhr

namespace Stopuhr

/-- Corollary of `sqrtRoundHE_spec` over the reals: `sqrtRoundHE w` is within
one half of the true square root, i.e. it is a nearest integer to
`Real.sqrt w`. -/
theorem sqrtRoundHE_sqrt_dist (w : ℚ) (hw : 0 ≤ w) :
    ((sqrtRoundHE w : ℝ) - 1/2) ≤ Real.sqrt ((w : ℝ))
    ∧ Real.sqrt ((w : ℝ)) ≤ (sqrtRoundHE w : ℝ) + 1/2 := by
  obtain ⟨hlo, hhi⟩ := sqrtRoundHE_spec w hw
  have hsq0 : (0:ℝ) ≤ Real.sqrt ((w:ℝ)) := Real.sqrt_nonneg _
  constructor
  · rcases le_or_lt ((sqrtRoundHE w : ℝ) - 1/2) 0 with hneg | hpos
    · linarith
    · rcases hlo with h | h0
      · have hcast : ((2 * (sqrtRoundHE w : ℝ) - 1) ^ 2) ≤ 4 * (w:ℝ) := by exact_mod_cast h
        have h2 : ((sqrtRoundHE w : ℝ) - 1/2) ^ 2 ≤ (w:ℝ) := by nlinarith
        have h3 : (sqrtRoundHE w : ℝ) - 1/2 = Real.sqrt (((sqrtRoundHE w : ℝ) - 1/2)^2) :=
          (Real.sqrt_sq hpos.le).symm
        rw [h3]
        exact Real.sqrt_le_sqrt h2
      · rw [h0] at hpos
        norm_num at hpos
  · have hcast : 4 * (w:ℝ) ≤ (2 * (sqrtRoundHE w : ℝ) + 1) ^ 2 := by exact_mod_cast hhi
    have h2 : (w:ℝ) ≤ ((sqrtRoundHE w : ℝ) + 1/2) ^ 2 := by nlinarith
    have h4 : (0:ℝ) ≤ (sqrtRoundHE w : ℝ) + 1/2 := by positivity
    calc Real.sqrt ((w:ℝ)) ≤ Real.sqrt (((sqrtRoundHE w : ℝ) + 1/2)^2) := Real.sqrt_le_sqrt h2
      _ = (sqrtRoundHE w : ℝ) + 1/2 := Real.sqrt_sq h4

end Stopuhr
